import Mathlib

/-!
Verification of the conversation-store, tool and turn-orchestration core of
the `agent-js` command-line agent, via a shallow embedding of the TypeScript
sources (`state.ts`, `tools.ts`, `utils.ts`, the orchestrator `main`) into
Lean.  JavaScript strings are modelled as `List Char`, JavaScript numbers in
token/pricing arithmetic as `Int`/`ℚ`, and the mutable store as explicit
state passing through the `reducer`.
-/

namespace AgentJs

/-- Embedding of the `cache_control` value `{ type: "ephemeral" }`. -/
inductive CacheControl
  | ephemeral
deriving DecidableEq, Repr

/-- A tool invocation's structured input (`toolUseBlock.input`), an opaque
structured mapping as far as the dispatcher and orchestrator are concerned. -/
abbrev ToolInput := List (String × String)

/-- Embedding of `Anthropic.Messages.ToolUseBlock` (the fields the program
reads: `id`, `name`, `input`). -/
structure ToolUseBlock where
  id : String
  name : String
  input : ToolInput
deriving DecidableEq, Repr

/-- Payload of one content block of a `MessageParam`, without its
`cache_control` field: a text block, a tool-use block, or a tool-result
block. -/
inductive ParamBlockData
  | text (text : String)
  | toolUse (block : ToolUseBlock)
  | toolResult (tool_use_id : String) (content : String) (is_error : Bool)
deriving DecidableEq, Repr

/-- One content block of a `MessageParam`: a payload plus the optional
`cache_control` cache marker (`null` is `none`). -/
structure ContentBlockParam where
  data : ParamBlockData
  cache_control : Option CacheControl
deriving DecidableEq, Repr

/-- `MessageParam.content` is either a plain string or an array of content
blocks (`typeof message.content === "string"` is the `str` case). -/
inductive MessageContent
  | str (s : String)
  | blocks (bs : List ContentBlockParam)
deriving DecidableEq, Repr

/-- Message roles used by the program. -/
inductive Role
  | user
  | assistant
deriving DecidableEq, Repr

/-- Embedding of `Anthropic.Messages.MessageParam`. -/
structure MessageParam where
  role : Role
  content : MessageContent
deriving DecidableEq, Repr

/-- Embedding of the `TokenUsage` interface of `utils.ts` (also used for the
`Anthropic.Messages.Usage` records stored in `messageUsages`): the two
required token counts and the two optional (possibly `null`) cache counts. -/
structure TokenUsage where
  input_tokens : Int
  output_tokens : Int
  cache_creation_input_tokens : Option Int := none
  cache_read_input_tokens : Option Int := none
deriving DecidableEq, Repr

/-- Embedding of the `ModelPricing` interface of `utils.ts`; prices are
currency per token scaled by `DOLLARS_PER_MILLION` at use sites. -/
structure ModelPricing where
  inputPerToken : ℚ
  outputPerToken : ℚ
  cacheWrite5mPerToken : ℚ
  cacheWrite1hPerToken : ℚ
  cacheReadPerToken : ℚ
deriving DecidableEq, Repr

/-- The `SupportedModel` union type of `utils.ts`. -/
inductive SupportedModel
  | opus46
  | sonnet46
  | haiku45
deriving DecidableEq, Repr

/-- The `Record<SupportedModel, ModelPricing>` object: one `ModelPricing`
per supported model. -/
structure PricingPerModel where
  opus46 : ModelPricing
  sonnet46 : ModelPricing
  haiku45 : ModelPricing
deriving DecidableEq, Repr

/-- Key lookup on the pricing record (`pricingPerModel[model]`). -/
def PricingPerModel.get (p : PricingPerModel) : SupportedModel → ModelPricing
  | SupportedModel.opus46 => p.opus46
  | SupportedModel.sonnet46 => p.sonnet46
  | SupportedModel.haiku45 => p.haiku45

/-- The `configState` slice of the store (`state.ts`). -/
structure ConfigState where
  pricingPerModel : PricingPerModel
  model : SupportedModel
  disableCostMessage : Bool
deriving DecidableEq, Repr

/-- The `appState` slice of the store (`state.ts`). -/
structure AppState where
  interrupted : Bool
  running : Bool
  messageParams : List MessageParam
  messageUsages : List TokenUsage
deriving DecidableEq, Repr

/-- The whole store state (`state.ts`, interface `State`). -/
structure State where
  appState : AppState
  configState : ConfigState
deriving DecidableEq, Repr

/-- `DEFAULT_CONFIG` of `config.ts` (model `claude-opus-4-6`, cost message
enabled, the hard-coded per-million pricing table). -/
def DEFAULT_CONFIG : ConfigState :=
  { model := SupportedModel.opus46
    disableCostMessage := false
    pricingPerModel :=
      { opus46 :=
          { inputPerToken := 5
            outputPerToken := 25
            cacheWrite5mPerToken := (6.25 : ℚ)
            cacheWrite1hPerToken := 10
            cacheReadPerToken := (0.5 : ℚ) }
        sonnet46 :=
          { inputPerToken := 3
            outputPerToken := 15
            cacheWrite5mPerToken := (3.75 : ℚ)
            cacheWrite1hPerToken := 6
            cacheReadPerToken := (0.3 : ℚ) }
        haiku45 :=
          { inputPerToken := 1
            outputPerToken := 5
            cacheWrite5mPerToken := (1.25 : ℚ)
            cacheWrite1hPerToken := 2
            cacheReadPerToken := (0.1 : ℚ) } } }

/-- The `initialState` of `state.ts`: empty history, `running = true`,
`interrupted = false`, default configuration. -/
def initialState : State :=
  { appState :=
      { interrupted := false
        running := true
        messageParams := []
        messageUsages := [] }
    configState := DEFAULT_CONFIG }

/-- The `Action` union type of `state.ts`. -/
inductive Action
  | setInterrupted (payload : Bool)
  | setRunning (payload : Bool)
  | appendToMessageParams (payload : MessageParam)
  | appendToMessageUsages (payload : TokenUsage)
  | setModel (payload : SupportedModel)
  | setPricingPerModel (payload : PricingPerModel)
  | setDisableCostMessage (payload : Bool)
deriving DecidableEq

/-- The per-message step of the `append-to-message-params` reducer case: a
message with string content is returned untouched, a message with array
content has `cache_control` set to `null` on every block. -/
def clearMessageCacheMarkers (m : MessageParam) : MessageParam :=
  match m.content with
  | MessageContent.str _ => m
  | MessageContent.blocks bs =>
      { m with
          content := MessageContent.blocks (bs.map (fun b => { b with cache_control := none })) }

/-- The `reducer` of `state.ts`: the pure state-transition function of the
store.  `append-to-message-params` first clears cache markers on all prior
array-content messages, then pushes the payload. -/
def reducer (st : State) : Action → State
  | Action.setInterrupted b =>
      { st with appState := { st.appState with interrupted := b } }
  | Action.setRunning b =>
      { st with appState := { st.appState with running := b } }
  | Action.appendToMessageParams payload =>
      { st with appState :=
          { st.appState with messageParams :=
              (st.appState.messageParams.map clearMessageCacheMarkers) ++ [payload] } }
  | Action.appendToMessageUsages payload =>
      { st with appState :=
          { st.appState with messageUsages :=
              st.appState.messageUsages ++ [payload] } }
  | Action.setModel payload =>
      { st with configState := { st.configState with model := payload } }
  | Action.setPricingPerModel payload =>
      { st with configState := { st.configState with pricingPerModel := payload } }
  | Action.setDisableCostMessage payload =>
      { st with configState := { st.configState with disableCostMessage := payload } }

/-- Dispatching a sequence of `append-to-message-params` actions in order. -/
def appendMessages (st : State) (ms : List MessageParam) : State :=
  ms.foldl (fun s m => reducer s (Action.appendToMessageParams m)) st

/-- Modelled from the spec: the conversation store in `src` has no
`truncate-messages` action (the `Action` union of `state.ts` ends at the
config setters), so the `truncateMessages(count)` operation of spec section
4.1 is modelled from the spec's words: "discards all messages beyond index
`count`; no-op if `count >= length`". -/
def truncateMessages (st : State) (count : Nat) : State :=
  { st with appState :=
      { st.appState with messageParams := st.appState.messageParams.take count } }

/-- JavaScript strings (file contents, search patterns) as lists of
characters. -/
abbrev JStr := List Char

/-- Embedding of `Anthropic.Messages.ToolResultBlockParam` as built by the
tool executors of `tools.ts`: `is_error` is optional in the source and
omitted on success, modelled as a `Bool` that is `false` on success. -/
structure ToolResultBlockParam where
  tool_use_id : String
  content : String
  is_error : Bool := false
deriving DecidableEq, Repr

/-- Number of non-overlapping, left-to-right matches of a non-empty pattern
`pat` in `s` — exactly the matches JavaScript's `String.prototype.split`
separates on, so for non-empty `pat`, `s.split(pat).length - 1 =
countMatches pat s`. -/
def countMatches (pat : JStr) : JStr → Nat
  | [] => 0
  | c :: rest =>
      if pat ≠ [] ∧ pat.isPrefixOf (c :: rest) then
        countMatches pat (rest.drop (pat.length - 1)) + 1
      else
        countMatches pat rest
termination_by s => s.length
decreasing_by
  · simp only [List.length_drop, List.length_cons]
    omega
  · simp only [List.length_cons]
    omega

/-- The occurrence count `content.split(old_str).length - 1` computed by
`executeStrReplaceTool`: JavaScript's `split` on the empty separator yields
one part per character (so the count is `content.length - 1`, which is `-1`
on the empty string), and on a non-empty separator yields one part more than
the number of non-overlapping matches. -/
def splitOccurrences (content pat : JStr) : Int :=
  if pat = [] then (content.length : Int) - 1
  else (countMatches pat content : Int)

/-- Body of `content.replace(old_str, new_str)` for a non-empty `old_str`:
scan left to right and substitute the first match. -/
def replaceFirstGo (pat repl : JStr) : JStr → JStr
  | [] => []
  | c :: rest =>
      if pat.isPrefixOf (c :: rest) then
        repl ++ rest.drop (pat.length - 1)
      else
        c :: replaceFirstGo pat repl rest

/-- Embedding of `content.replace(old_str, new_str)` for a replacement
string without `$`-substitution patterns: the empty pattern matches at
position 0, so the replacement is prepended. -/
def replaceFirst (content pat repl : JStr) : JStr :=
  if pat = [] then repl ++ content
  else replaceFirstGo pat repl content

/-- `executeStrReplaceTool` of `tools.ts`, on a file that was read
successfully: returns the tool-result block and the file content after the
call (unchanged on both error paths).  The occurrence count is
`content.split(old_str).length - 1`; `0` and `> 1` occurrences are the two
error branches, otherwise `content.replace(old_str, new_str)` is written. -/
def executeStrReplaceTool (path tool_use_id : String) (content old_str new_str : JStr) :
    ToolResultBlockParam × JStr :=
  let occurrences : Int := splitOccurrences content old_str
  if occurrences = 0 then
    ({ tool_use_id := tool_use_id
       content := "old_str not found in file"
       is_error := true }, content)
  else if occurrences > 1 then
    ({ tool_use_id := tool_use_id
       content := "old_str matched " ++ toString occurrences ++ " times — must match exactly once"
       is_error := true }, content)
  else
    ({ tool_use_id := tool_use_id
       content := path ++ " updated successfully"
       is_error := false }, replaceFirst content old_str new_str)

/-- The number of positions at which `pat` occurs in `s` as a substring
(overlapping occurrences counted separately).  This follows the claim's
words "contains old_str ... as a substring", for comparison with the
split-based count the code computes. -/
def substrOccurrences (s pat : JStr) : Nat :=
  ((List.range (s.length + 1)).filter (fun i => pat.isPrefixOf (s.drop i))).length

/-- JavaScript's `content.split("\n")`: the list of lines, where a trailing
newline yields a trailing empty line and the empty string yields one empty
line. -/
def splitLinesJS : JStr → List JStr
  | [] => [[]]
  | c :: rest =>
      if c = '\n' then [] :: splitLinesJS rest
      else
        match splitLinesJS rest with
        | [] => [[c]]
        | l :: ls => (c :: l) :: ls

/-- JavaScript's `lines.join("\n")`. -/
def joinLines : List JStr → JStr
  | [] => []
  | [l] => l
  | l :: ls => l ++ '\n' :: joinLines ls

/-- `executeInsertLinesTool` of `tools.ts`, on a file that was read
successfully: returns the tool-result block and the file content after the
call.  `after_line` outside `[0, lines.length]` is the out-of-range error
branch; otherwise `lines.splice(after_line, 0, content)` inserts the new
line at index `after_line` and the joined lines are written back. -/
def executeInsertLinesTool (path tool_use_id : String) (fileContent : JStr)
    (after_line : Int) (content : JStr) : ToolResultBlockParam × JStr :=
  let lines := splitLinesJS fileContent
  if after_line < 0 ∨ after_line > (lines.length : Int) then
    ({ tool_use_id := tool_use_id
       content := "after_line " ++ toString after_line ++ " is out of range (file has "
         ++ toString lines.length ++ " lines)"
       is_error := true }, fileContent)
  else
    ({ tool_use_id := tool_use_id
       content := path ++ " updated successfully"
       is_error := false }, joinLines (lines.insertIdx after_line.toNat content))

/-- JavaScript's `Array.prototype.slice(start, end)` with possibly negative
or out-of-range integer arguments: negative indices count from the end of
the array and both indices are clamped to `[0, length]`. -/
def jsSlice (l : List α) (start stop : Int) : List α :=
  let len : Int := l.length
  let s := if start < 0 then max (len + start) 0 else min start len
  let e := if stop < 0 then max (len + stop) 0 else min stop len
  (l.take e.toNat).drop s.toNat

/-- The numbered rendering of `executeViewFileTool`:
`slice.map((line, i) => `${String(start + i + 1)}\t${line}`).join("\n")`,
where `start` is the raw (unclamped) zero-based start index. -/
def renderNumberedLines (start : Int) (slice : List JStr) : JStr :=
  joinLines (slice.enum.map (fun p => (toString (start + (p.1 : Int) + 1)).toList ++ '\t' :: p.2))

/-- `executeViewFileTool` of `tools.ts`, on the regular-file branch with the
file read successfully: `start` is `(start_line ?? 1) - 1`, the end index is
the line count when `end_line` is absent or `-1`, the slice is
`lines.slice(start, end)` and the result is the numbered listing; this
branch never sets `is_error`. -/
def executeViewFileTool (tool_use_id : String) (fileContent : JStr)
    (start_line end_line : Option Int) : ToolResultBlockParam :=
  let lines := splitLinesJS fileContent
  let start : Int := start_line.getD 1 - 1
  let stop : Int :=
    match end_line with
    | none => (lines.length : Int)
    | some e => if e = -1 then (lines.length : Int) else e
  { tool_use_id := tool_use_id
    content := String.mk (renderNumberedLines start (jsSlice lines start stop))
    is_error := false }

/-- The external executors the dispatcher routes to, as opaque functions
from the tool-use block to the produced tool-result block (their I/O is
outside the embedding; the pure cores of the file tools are modelled
above). -/
structure ToolEnv where
  bash : ToolUseBlock → ToolResultBlockParam
  createFile : ToolUseBlock → ToolResultBlockParam
  viewFile : ToolUseBlock → ToolResultBlockParam
  strReplace : ToolUseBlock → ToolResultBlockParam
  insertLines : ToolUseBlock → ToolResultBlockParam

/-- Result of `getToolResultBlock`: either the returned tool-result block or
the thrown fatal error's message. -/
inductive DispatchOutcome
  | toolResult (block : ToolResultBlockParam)
  | thrown (message : String)
deriving DecidableEq, Repr

/-- `getToolResultBlock` of `tools.ts`: switch on `toolUseBlock.name` over
the five registered tools; if no case matched, `toolResultBlock` stays
`null` and the fatal error is thrown. -/
def getToolResultBlock (env : ToolEnv) (toolUseBlock : ToolUseBlock) : DispatchOutcome :=
  let toolResultBlock : Option ToolResultBlockParam :=
    match toolUseBlock.name with
    | "bash" => some (env.bash toolUseBlock)
    | "create_file" => some (env.createFile toolUseBlock)
    | "view_file" => some (env.viewFile toolUseBlock)
    | "str_replace" => some (env.strReplace toolUseBlock)
    | "insert_lines" => some (env.insertLines toolUseBlock)
    | _ => none
  match toolResultBlock with
  | some r => DispatchOutcome.toolResult r
  | none => DispatchOutcome.thrown "Failed to create a tool result when processing the tool call"

/-- The `stop_reason` values of a final model message; the orchestrator only
compares against `"tool_use"`. -/
inductive StopReason
  | endTurn
  | toolUse
  | maxTokens
  | stopSequence
deriving DecidableEq, Repr

/-- A content block of a final (response) message: text or a tool-use
request. -/
inductive RespBlock
  | text (text : String)
  | toolUse (block : ToolUseBlock)
deriving DecidableEq, Repr

/-- The final message of a completed model stream (`finalMessage()`), with
the fields the orchestrator reads. -/
structure FinalMessage where
  role : Role
  content : List RespBlock
  stop_reason : StopReason
  usage : TokenUsage
deriving DecidableEq, Repr

/-- Outcome of one model call in a turn: the user aborted the in-flight
stream (`APIUserAbortError`), or the stream completed with a final
message.  A turn is driven by the list of outcomes its calls produce. -/
inductive ModelOutcome
  | aborted
  | success (message : FinalMessage)
deriving DecidableEq, Repr

/-- A response content block re-sent as a message-param block
(`{content: streamResult.content, role: streamResult.role}`): response
blocks carry no `cache_control`. -/
def respBlockToParam : RespBlock → ContentBlockParam
  | RespBlock.text t => { data := ParamBlockData.text t, cache_control := none }
  | RespBlock.toolUse b => { data := ParamBlockData.toolUse b, cache_control := none }

/-- The assistant reply appended to the store after a successful call. -/
def finalMessageToParam (m : FinalMessage) : MessageParam :=
  { role := m.role, content := MessageContent.blocks (m.content.map respBlockToParam) }

/-- The store commits of a successful `callApi(messageParam)` in the
orchestrator `main`: append the outbound message, append the usage record,
append the reply converted to a message param — in that order, and only
after the stream completed (an aborted stream commits nothing). -/
def callApiCommit (st : State) (messageParam : MessageParam) (m : FinalMessage) : State :=
  reducer
    (reducer
      (reducer st (Action.appendToMessageParams messageParam))
      (Action.appendToMessageUsages m.usage))
    (Action.appendToMessageParams (finalMessageToParam m))

/-- The tool-use blocks of a reply's content, in appearance order (the
orchestrator's `for` loop over `currentMessage.content`). -/
def collectToolUseBlocks (content : List RespBlock) : List ToolUseBlock :=
  content.filterMap (fun b =>
    match b with
    | RespBlock.toolUse t => some t
    | _ => none)

/-- The single user message assembling all tool results of one round, each
block getting `cache_control: { type: "ephemeral" }`. -/
def toolResultsMessage (exec : ToolUseBlock → ToolResultBlockParam) (m : FinalMessage) :
    MessageParam :=
  { role := Role.user
    content := MessageContent.blocks
      ((collectToolUseBlocks m.content).map (fun t =>
        { data := ParamBlockData.toolResult (exec t).tool_use_id (exec t).content (exec t).is_error
          cache_control := some CacheControl.ephemeral })) }

/-- The user message built from one line of operator input. -/
def userMessageParam (text : String) : MessageParam :=
  { role := Role.user
    content := MessageContent.blocks
      [{ data := ParamBlockData.text text, cache_control := some CacheControl.ephemeral }] }

/-- The orchestrator's inner tool loop (`while (currentMessage.stop_reason
=== "tool_use")`): dispatch the round's tools, call the model with the
assembled result message, and on abort `break` out of the loop — the store
keeps every exchange already committed within the turn. -/
def runToolLoop (exec : ToolUseBlock → ToolResultBlockParam) :
    State → FinalMessage → List ModelOutcome → State
  | st, curr, script =>
      if curr.stop_reason = StopReason.toolUse then
        match script with
        | [] => st
        | ModelOutcome.aborted :: _ => st
        | ModelOutcome.success m :: rest =>
            runToolLoop exec (callApiCommit st (toolResultsMessage exec curr) m) m rest
      else st

/-- One turn of the orchestrator `main`, from non-empty operator input to
the turn's end: the first model call with the user message (an abort ends
the turn with no commit), then the tool loop. -/
def runTurn (exec : ToolUseBlock → ToolResultBlockParam) (st : State) (userText : String) :
    List ModelOutcome → State
  | [] => st
  | ModelOutcome.aborted :: _ => st
  | ModelOutcome.success m :: rest =>
      runToolLoop exec (callApiCommit st (userMessageParam userText) m) m rest

/-- ASCII lower-casing of a string, character by character (the
canonicalization relevant to the `/i` flag on the pattern letters `y`, `e`,
`s`). -/
def toLowerCaseJs (s : String) : String :=
  String.mk (s.toList.map Char.toLower)

/-- The test `/^y(es)?$/i.exec(answer)` of the exit-confirmation dialog as a
predicate: the anchored pattern matches exactly the answers that are `y` or
`yes` up to ASCII case. -/
def yesMatches (answer : String) : Bool :=
  toLowerCaseJs answer = "y" || toLowerCaseJs answer = "yes"

/-- The exit-confirmation sub-dialog of the orchestrator `main`:
`interrupted` is set on entry; a confirmation prompt answer matching
`/^y(es)?$/i` sets `running` to `false`; a cancelled prompt (`none`) changes
nothing; `interrupted` is cleared before control leaves the sub-dialog. -/
def confirmExitDialog (st : State) (answer : Option String) : State :=
  let st1 := reducer st (Action.setInterrupted true)
  let st2 :=
    match answer with
    | none => st1
    | some a => if yesMatches a then reducer st1 (Action.setRunning false) else st1
  reducer st2 (Action.setInterrupted false)

/-- The accumulator of the `usages.reduce` in `calculateSessionCost`. -/
structure TotalUsage where
  cache_creation_input_tokens : Int
  cache_read_input_tokens : Int
  input_tokens : Int
  output_tokens : Int
deriving DecidableEq, Repr

/-- Zero-pad a rendered number to `n` digits. -/
def padLeftZeros (s : String) (n : Nat) : String :=
  String.mk (List.replicate (n - s.length) '0') ++ s

/-- `x.toFixed(4)` on a non-negative value: the integer `n` nearest to
`x * 10^4` (ties towards the larger `n`), rendered with four decimal
digits. -/
def toFixed4Nonneg (q : ℚ) : String :=
  let n : Int := ⌊q * 10000 + (1 : ℚ) / 2⌋
  toString (n / 10000) ++ "." ++ padLeftZeros (toString (n % 10000)) 4

/-- JavaScript's `Number.prototype.toFixed(4)` over the idealized rational
value: negative values format the absolute value behind a minus sign. -/
def toFixed4 (q : ℚ) : String :=
  if q < 0 then "-" ++ toFixed4Nonneg (-q) else toFixed4Nonneg q

/-- `calculateSessionCost` of `utils.ts`: looks the pricing up in the
store's `pricingPerModel`, totals the four token kinds over all usages with
`reduce` (absent/`null` cache counts as 0), prices each total per million
tokens, and formats the summed cost with `toFixed(4)`. -/
def calculateSessionCost (st : State) (model : SupportedModel) (usages : List TokenUsage) :
    String :=
  let pricing := st.configState.pricingPerModel.get model
  let totalUsage : TotalUsage := usages.foldl
    (fun accum curr =>
      { cache_creation_input_tokens :=
          accum.cache_creation_input_tokens + curr.cache_creation_input_tokens.getD 0
        cache_read_input_tokens :=
          accum.cache_read_input_tokens + curr.cache_read_input_tokens.getD 0
        input_tokens := accum.input_tokens + curr.input_tokens
        output_tokens := accum.output_tokens + curr.output_tokens })
    { cache_creation_input_tokens := 0
      cache_read_input_tokens := 0
      input_tokens := 0
      output_tokens := 0 }
  let inputCost : ℚ := totalUsage.input_tokens * pricing.inputPerToken / 1000000
  let outputCost : ℚ := totalUsage.output_tokens * pricing.outputPerToken / 1000000
  let cacheCreationCost : ℚ :=
    totalUsage.cache_creation_input_tokens * pricing.cacheWrite5mPerToken / 1000000
  let cacheReadCost : ℚ :=
    totalUsage.cache_read_input_tokens * pricing.cacheReadPerToken / 1000000
  let cost := inputCost + outputCost + cacheCreationCost + cacheReadCost
  "Session cost: $" ++ toFixed4 cost

/-- `maybePrintCostMessage` of `utils.ts` as the optionally printed line:
nothing is printed when `disableCostMessage` is set, otherwise the session
cost of the store's model and usage log. -/
def maybePrintCostMessage (st : State) : Option String :=
  if st.configState.disableCostMessage then none
  else some (calculateSessionCost st st.configState.model st.appState.messageUsages)

/-- A message whose earlier array content must not keep a cache marker: a
user text block carrying `cache_control: { type: "ephemeral" }`. -/
def markedTextMessage : MessageParam :=
  { role := Role.user
    content := MessageContent.blocks
      [{ data := ParamBlockData.text r"first", cache_control := some CacheControl.ephemeral }] }

/-- A later assistant message with array content and no marker. -/
def plainTextMessage : MessageParam :=
  { role := Role.assistant
    content := MessageContent.blocks
      [{ data := ParamBlockData.text r"second", cache_control := none }] }

/-- A trivial external executor used to instantiate the dispatcher and the
turn orchestrator on concrete runs. -/
def okExec : ToolUseBlock → ToolResultBlockParam :=
  fun t => { tool_use_id := t.id, content := "ok", is_error := false }

/-- A tool environment where every executor is `okExec`. -/
def okEnv : ToolEnv :=
  { bash := okExec
    createFile := okExec
    viewFile := okExec
    strReplace := okExec
    insertLines := okExec }

/-- A final model message requesting one tool use (stop reason
`"tool_use"`). -/
def toolUseReply : FinalMessage :=
  { role := Role.assistant
    content := [RespBlock.toolUse { id := r"t1", name := r"bash", input := [] }]
    stop_reason := StopReason.toolUse
    usage := { input_tokens := 1, output_tokens := 1 } }

/-- A message satisfies the cache-marker part of the store invariant when
its content is a plain string or none of its blocks carries a marker. -/
def messageHasNoActiveMarker (m : MessageParam) : Prop :=
  match m.content with
  | MessageContent.str _ => True
  | MessageContent.blocks bs => ∀ b ∈ bs, b.cache_control = none

theorem clearMessageCacheMarkers_idem (m : MessageParam) :
    clearMessageCacheMarkers (clearMessageCacheMarkers m) = clearMessageCacheMarkers m := by
  obtain ⟨r, c⟩ := m
  cases c <;> simp [clearMessageCacheMarkers, List.map_map, Function.comp]

theorem messageHasNoActiveMarker_clear (m : MessageParam) :
    messageHasNoActiveMarker (clearMessageCacheMarkers m) := by
  obtain ⟨r, c⟩ := m
  cases c <;> simp [clearMessageCacheMarkers, messageHasNoActiveMarker]

theorem reducer_append_dropLast_cleared (st : State) (p : MessageParam) :
    ∀ m ∈ (reducer st (Action.appendToMessageParams p)).appState.messageParams.dropLast,
      messageHasNoActiveMarker m := by
  simp only [reducer, List.dropLast_concat]
  intro m hm
  obtain ⟨m0, _, rfl⟩ := List.mem_map.1 hm
  exact messageHasNoActiveMarker_clear m0

theorem appendMessages_cons (st : State) (x : MessageParam) (xs : List MessageParam) :
    appendMessages st (x :: xs) = appendMessages (reducer st (Action.appendToMessageParams x)) xs :=
  rfl

theorem appendMessages_preserves_cleared (ms : List MessageParam) :
    ∀ st : State,
      (∀ m ∈ st.appState.messageParams.dropLast, messageHasNoActiveMarker m) →
      ∀ m ∈ (appendMessages st ms).appState.messageParams.dropLast, messageHasNoActiveMarker m := by
  induction ms with
  | nil => intro st h; simpa [appendMessages] using h
  | cons x xs ih =>
      intro st _
      rw [appendMessages_cons]
      exact ih _ (reducer_append_dropLast_cleared st x)

/-- Claim C2: for every sequence of `append-to-message-params` dispatches
starting from the empty store, every message before the most recently
appended one either has string content or carries `cache_control = null` on
all of its content blocks — only the final message may hold an active cache
marker. -/
theorem appendMessages_cache_marker_invariant (ms : List MessageParam) :
    ∀ m ∈ (appendMessages initialState ms).appState.messageParams.dropLast,
      messageHasNoActiveMarker m :=
  appendMessages_preserves_cleared ms initialState (by simp [initialState])

/-- Witness for C2: appending a marker-carrying message and then a second
message leaves the first message in the store with its marker cleared. -/
theorem appendMessages_cache_marker_witness :
    clearMessageCacheMarkers markedTextMessage ∈
      (appendMessages initialState
        [markedTextMessage, plainTextMessage]).appState.messageParams.dropLast ∧
    messageHasNoActiveMarker (clearMessageCacheMarkers markedTextMessage) :=
  ⟨by decide,
   appendMessages_cache_marker_invariant [markedTextMessage, plainTextMessage]
     (clearMessageCacheMarkers markedTextMessage) (by decide)⟩

theorem map_clear_idem (l : List MessageParam) :
    (l.map clearMessageCacheMarkers).map clearMessageCacheMarkers
      = l.map clearMessageCacheMarkers := by
  induction l with
  | nil => rfl
  | cons x xs ih => simp [ih, clearMessageCacheMarkers_idem]

theorem appendMessages_interrupted (ms : List MessageParam) :
    ∀ st : State, (appendMessages st ms).appState.interrupted = st.appState.interrupted := by
  induction ms with
  | nil => intro st; rfl
  | cons x xs ih => intro st; rw [appendMessages_cons, ih]; rfl

theorem appendMessages_running (ms : List MessageParam) :
    ∀ st : State, (appendMessages st ms).appState.running = st.appState.running := by
  induction ms with
  | nil => intro st; rfl
  | cons x xs ih => intro st; rw [appendMessages_cons, ih]; rfl

theorem appendMessages_messageUsages (ms : List MessageParam) :
    ∀ st : State, (appendMessages st ms).appState.messageUsages = st.appState.messageUsages := by
  induction ms with
  | nil => intro st; rfl
  | cons x xs ih => intro st; rw [appendMessages_cons, ih]; rfl

theorem appendMessages_configState (ms : List MessageParam) :
    ∀ st : State, (appendMessages st ms).configState = st.configState := by
  induction ms with
  | nil => intro st; rfl
  | cons x xs ih => intro st; rw [appendMessages_cons, ih]; rfl

theorem appendMessages_take_base (ms : List MessageParam) (h : ms ≠ []) :
    ∀ st : State,
      (appendMessages st ms).appState.messageParams.take st.appState.messageParams.length
        = st.appState.messageParams.map clearMessageCacheMarkers := by
  induction ms with
  | nil => exact absurd rfl h
  | cons x xs ih =>
      intro st
      rw [appendMessages_cons]
      cases xs with
      | nil =>
          show ((st.appState.messageParams.map clearMessageCacheMarkers) ++ [x]).take
              st.appState.messageParams.length = _
          rw [List.take_left']
          simp
      | cons y ys =>
          have hlen : st.appState.messageParams.length
              ≤ (reducer st (Action.appendToMessageParams x)).appState.messageParams.length := by
            simp [reducer]
          have := ih (by simp) (reducer st (Action.appendToMessageParams x))
          calc (appendMessages (reducer st (Action.appendToMessageParams x))
                  (y :: ys)).appState.messageParams.take st.appState.messageParams.length
              = ((appendMessages (reducer st (Action.appendToMessageParams x))
                  (y :: ys)).appState.messageParams.take
                    (reducer st (Action.appendToMessageParams x)).appState.messageParams.length).take
                  st.appState.messageParams.length := by
                rw [List.take_take, Nat.min_eq_left hlen]
            _ = ((reducer st (Action.appendToMessageParams x)).appState.messageParams.map
                  clearMessageCacheMarkers).take st.appState.messageParams.length := by rw [this]
            _ = st.appState.messageParams.map clearMessageCacheMarkers := by
                simp only [reducer, List.map_append, map_clear_idem]
                rw [List.take_left']
                simp

theorem appendMessages_truncate_map_clear (ms : List MessageParam) :
    ∀ (st : State) (n : Nat), n ≤ ms.length →
      ((appendMessages st ms).appState.messageParams.take
          (st.appState.messageParams.length + n)).map clearMessageCacheMarkers
        = (appendMessages st (ms.take n)).appState.messageParams.map clearMessageCacheMarkers := by
  induction ms with
  | nil =>
      intro st n hn
      have h0 : n = 0 := by simpa using hn
      subst h0
      simp [appendMessages]
  | cons x xs ih =>
      intro st n hn
      cases n with
      | zero =>
          simp only [Nat.add_zero, List.take_zero]
          rw [appendMessages_take_base (x :: xs) (by simp) st, map_clear_idem]
          rfl
      | succ n' =>
          have hstep : st.appState.messageParams.length + (n' + 1)
              = (reducer st (Action.appendToMessageParams x)).appState.messageParams.length + n' := by
            simp [reducer]
            omega
          rw [List.take_succ_cons, appendMessages_cons, appendMessages_cons, hstep]
          exact ih (reducer st (Action.appendToMessageParams x)) n' (by simpa using hn)

/-- Claim C4: the (spec-modelled) `truncateMessages(count)` discards the
messages beyond index `count`, is a no-op when `count ≥ length`, and
truncating an appended run back to its first `n` messages and then appending
is indistinguishable from never having appended the truncated messages. -/
theorem truncateMessages_spec :
    (∀ (st : State) (count : Nat),
      st.appState.messageParams.length ≤ count → truncateMessages st count = st) ∧
    (∀ (st : State) (ms : List MessageParam) (n : Nat) (m : MessageParam),
      n ≤ ms.length →
      reducer (truncateMessages (appendMessages st ms)
          (st.appState.messageParams.length + n)) (Action.appendToMessageParams m)
        = reducer (appendMessages st (ms.take n)) (Action.appendToMessageParams m)) := by
  constructor
  · intro st count h
    simp only [truncateMessages, List.take_of_length_le h]
  · intro st ms n m hn
    simp only [reducer, truncateMessages]
    rw [State.mk.injEq, AppState.mk.injEq]
    refine ⟨⟨?_, ?_, ?_, ?_⟩, ?_⟩
    · rw [appendMessages_interrupted, appendMessages_interrupted]
    · rw [appendMessages_running, appendMessages_running]
    · rw [appendMessages_truncate_map_clear ms st n hn]
    · rw [appendMessages_messageUsages, appendMessages_messageUsages]
    · rw [appendMessages_configState, appendMessages_configState]

/-- Witness for C4: `truncateMessages 3` on the initial store is a no-op,
and truncating a two-message run back to one message before appending again
agrees with never appending the second message. -/
theorem truncateMessages_spec_witness :
    truncateMessages initialState 3 = initialState ∧
    reducer (truncateMessages (appendMessages initialState [markedTextMessage, plainTextMessage])
        (initialState.appState.messageParams.length + 1))
        (Action.appendToMessageParams plainTextMessage)
      = reducer (appendMessages initialState ([markedTextMessage, plainTextMessage].take 1))
          (Action.appendToMessageParams plainTextMessage) :=
  ⟨truncateMessages_spec.1 initialState 3 (by decide),
   truncateMessages_spec.2 initialState [markedTextMessage, plainTextMessage] 1 plainTextMessage
     (by decide)⟩

theorem countMatches_decomp (pat repl : JStr) (hp : pat ≠ []) :
    ∀ N : Nat, ∀ s : JStr, s.length ≤ N → 1 ≤ countMatches pat s →
      ∃ pre suf, s = pre ++ pat ++ suf ∧ replaceFirstGo pat repl s = pre ++ repl ++ suf := by
  intro N
  induction N with
  | zero =>
      intro s hlen h1
      have hs : s = [] := by
        cases s with
        | nil => rfl
        | cons c rest => simp at hlen
      subst hs
      simp [countMatches] at h1
  | succ N ih =>
      intro s hlen h1
      cases s with
      | nil => simp [countMatches] at h1
      | cons c rest =>
          by_cases hpre : pat.isPrefixOf (c :: rest)
          · obtain ⟨t, ht⟩ := (List.isPrefixOf_iff_prefix.1 hpre)
            obtain ⟨p0, pl, rfl⟩ : ∃ p0 pl, pat = p0 :: pl := by
              cases pat with
              | nil => exact absurd rfl hp
              | cons p0 pl => exact ⟨p0, pl, rfl⟩
            have hc : p0 = c ∧ pl ++ t = rest := by
              have := ht
              simp only [List.cons_append, List.cons.injEq] at this
              exact this
            obtain ⟨rfl, hrest⟩ := hc
            refine ⟨[], t, by simp [← ht], ?_⟩
            rw [replaceFirstGo, if_pos hpre]
            have hdrop : rest.drop ((p0 :: pl).length - 1) = t := by
              rw [← hrest]
              simp
            rw [hdrop]
            simp
          · have hcond : ¬(pat ≠ [] ∧ pat.isPrefixOf (c :: rest)) := by
              intro hyp
              exact hpre hyp.2
            rw [countMatches, if_neg hcond] at h1
            obtain ⟨pre, suf, hs, hr⟩ :=
              ih rest (by simp at hlen; omega) h1
            refine ⟨c :: pre, suf, by simp [hs], ?_⟩
            rw [replaceFirstGo, if_neg hpre, hr]
            simp

/-- Claim C3 (amended): `executeStrReplaceTool` counts occurrences the way
`content.split(old_str)` does — non-overlapping, left to right.  With
exactly one such occurrence the call succeeds and the file becomes the
original with that (leftmost) occurrence replaced by `new_str` (a `new_str`
without `$`-substitution patterns, which JavaScript's `replace` treats
specially); with zero occurrences or more than one, the call reports
`isError: true` and the file content is unchanged. -/
theorem executeStrReplaceTool_spec (path tid : String) (content old_str new_str : JStr)
    (_hds : ('$' : Char) ∉ new_str) :
    (splitOccurrences content old_str = 1 →
      (executeStrReplaceTool path tid content old_str new_str).1.is_error = false ∧
      ∃ pre suf, content = pre ++ old_str ++ suf ∧
        (executeStrReplaceTool path tid content old_str new_str).2 = pre ++ new_str ++ suf) ∧
    ((splitOccurrences content old_str = 0 ∨ 1 < splitOccurrences content old_str) →
      (executeStrReplaceTool path tid content old_str new_str).1.is_error = true ∧
      (executeStrReplaceTool path tid content old_str new_str).2 = content) := by
  constructor
  · intro h1
    have hout : executeStrReplaceTool path tid content old_str new_str
        = ({ tool_use_id := tid
             content := path ++ " updated successfully"
             is_error := false }, replaceFirst content old_str new_str) := by
      unfold executeStrReplaceTool
      rw [h1]
      norm_num
    rw [hout]
    refine ⟨rfl, ?_⟩
    by_cases hp : old_str = []
    · subst hp
      exact ⟨[], content, by simp, by simp [replaceFirst]⟩
    · have hcm : 1 ≤ countMatches old_str content := by
        have : splitOccurrences content old_str = (countMatches old_str content : Int) := by
          simp [splitOccurrences, hp]
        rw [this] at h1
        omega
      obtain ⟨pre, suf, hs, hr⟩ :=
        countMatches_decomp old_str new_str hp content.length content le_rfl hcm
      exact ⟨pre, suf, hs, by simpa [replaceFirst, hp] using hr⟩
  · intro h2
    rcases h2 with h0 | hmany
    · unfold executeStrReplaceTool
      rw [h0]
      norm_num
    · unfold executeStrReplaceTool
      have hne : splitOccurrences content old_str ≠ 0 := by omega
      rw [if_neg hne, if_pos hmany]
      exact ⟨rfl, rfl⟩

/-- Counterexample for C3 as stated: `"aaa"` contains `"aa"` at two
positions (overlapping), yet the tool counts one occurrence, succeeds and
rewrites the file — it does not return `isError: true` and does not leave
the file unchanged. -/
theorem executeStrReplaceTool_overlap_counterexample :
    1 < substrOccurrences ("aaa".toList) ("aa".toList) ∧
    (executeStrReplaceTool r"f.txt" r"t1" ("aaa".toList) ("aa".toList)
      ("b".toList)).1.is_error = false ∧
    (executeStrReplaceTool r"f.txt" r"t1" ("aaa".toList) ("aa".toList)
      ("b".toList)).2 ≠ "aaa".toList := by
  refine ⟨by decide, ?_, ?_⟩ <;>
    simp [executeStrReplaceTool, splitOccurrences, countMatches, replaceFirst, replaceFirstGo]

/-- Witness for C3: a unique occurrence is substituted in place, and a
missing `old_str` yields an error with the file unchanged. -/
theorem executeStrReplaceTool_spec_witness :
    ((executeStrReplaceTool r"f.txt" r"t1" ("foo bar baz".toList) ("bar".toList)
        ("qux".toList)).1.is_error = false ∧
      ∃ pre suf, "foo bar baz".toList = pre ++ "bar".toList ++ suf ∧
        (executeStrReplaceTool r"f.txt" r"t1" ("foo bar baz".toList) ("bar".toList)
          ("qux".toList)).2 = pre ++ "qux".toList ++ suf) ∧
    ((executeStrReplaceTool r"f.txt" r"t1" ("foo bar baz".toList) ("zzz".toList)
        ("qux".toList)).1.is_error = true ∧
      (executeStrReplaceTool r"f.txt" r"t1" ("foo bar baz".toList) ("zzz".toList)
        ("qux".toList)).2 = "foo bar baz".toList) :=
  ⟨(executeStrReplaceTool_spec r"f.txt" r"t1" ("foo bar baz".toList) ("bar".toList)
      ("qux".toList) (by decide)).1 (by simp [splitOccurrences, countMatches]),
   (executeStrReplaceTool_spec r"f.txt" r"t1" ("foo bar baz".toList) ("zzz".toList)
      ("qux".toList) (by decide)).2 (Or.inl (by simp [splitOccurrences, countMatches]))⟩

theorem splitLinesJS_ne_nil (s : JStr) : splitLinesJS s ≠ [] := by
  cases s with
  | nil => simp [splitLinesJS]
  | cons c rest =>
      rw [splitLinesJS]
      by_cases hc : c = '\n'
      · simp [hc]
      · rw [if_neg hc]
        cases splitLinesJS rest <;> simp

theorem joinLines_cons_of_ne_nil (l : JStr) (ls : List JStr) (h : ls ≠ []) :
    joinLines (l :: ls) = l ++ '\n' :: joinLines ls := by
  cases ls with
  | nil => exact absurd rfl h
  | cons y ys => rfl

theorem joinLines_cons_head (c : Char) (l : JStr) (ls : List JStr) :
    joinLines ((c :: l) :: ls) = c :: joinLines (l :: ls) := by
  cases ls <;> simp [joinLines]

theorem joinLines_splitLinesJS (s : JStr) : joinLines (splitLinesJS s) = s := by
  induction s with
  | nil => rfl
  | cons c rest ih =>
      rw [splitLinesJS]
      by_cases hc : c = '\n'
      · rw [if_pos hc, joinLines_cons_of_ne_nil _ _ (splitLinesJS_ne_nil rest), ih, hc]
        rfl
      · rw [if_neg hc]
        cases hsp : splitLinesJS rest with
        | nil => exact absurd hsp (splitLinesJS_ne_nil rest)
        | cons l ls =>
            rw [joinLines_cons_head, ← hsp, ih]

theorem joinLines_concat_of_ne_nil (ls : List JStr) (l : JStr) (h : ls ≠ []) :
    joinLines (ls ++ [l]) = joinLines ls ++ '\n' :: l := by
  induction ls with
  | nil => exact absurd rfl h
  | cons x xs ih =>
      cases xs with
      | nil => simp [joinLines]
      | cons y ys =>
          rw [List.cons_append, joinLines_cons_of_ne_nil x ((y :: ys) ++ [l]) (by simp),
            joinLines_cons_of_ne_nil x (y :: ys) (by simp), ih (by simp)]
          simp

/-- Claim C5: `executeInsertLinesTool` with `after_line = 0` prepends the
new content as the first line, with `after_line` equal to the line count it
appends it as the last line, and with `after_line < 0` or greater than the
line count it reports an out-of-range error and leaves the file
unchanged. -/
theorem executeInsertLinesTool_spec (path tid : String) (fileContent ins : JStr) :
    ((executeInsertLinesTool path tid fileContent 0 ins).1.is_error = false ∧
      (executeInsertLinesTool path tid fileContent 0 ins).2 = ins ++ '\n' :: fileContent) ∧
    ((executeInsertLinesTool path tid fileContent
        ((splitLinesJS fileContent).length : Int) ins).1.is_error = false ∧
      (executeInsertLinesTool path tid fileContent
        ((splitLinesJS fileContent).length : Int) ins).2 = fileContent ++ '\n' :: ins) ∧
    (∀ a : Int, a < 0 ∨ ((splitLinesJS fileContent).length : Int) < a →
      (executeInsertLinesTool path tid fileContent a ins).1.is_error = true ∧
      (executeInsertLinesTool path tid fileContent a ins).2 = fileContent) := by
  refine ⟨?_, ?_, ?_⟩
  · have hcond : ¬((0 : Int) < 0 ∨ (0 : Int) > ((splitLinesJS fileContent).length : Int)) := by
      simp
    unfold executeInsertLinesTool
    rw [if_neg hcond]
    refine ⟨rfl, ?_⟩
    show joinLines (List.insertIdx (Int.toNat 0) ins (splitLinesJS fileContent)) = _
    rw [Int.toNat_zero, List.insertIdx_zero,
      joinLines_cons_of_ne_nil _ _ (splitLinesJS_ne_nil fileContent), joinLines_splitLinesJS]
  · have hcond : ¬(((splitLinesJS fileContent).length : Int) < 0 ∨
        ((splitLinesJS fileContent).length : Int) > ((splitLinesJS fileContent).length : Int)) := by
      simp
    unfold executeInsertLinesTool
    rw [if_neg hcond]
    refine ⟨rfl, ?_⟩
    show joinLines (List.insertIdx (Int.toNat ((splitLinesJS fileContent).length : Int)) ins
        (splitLinesJS fileContent)) = _
    rw [Int.toNat_natCast, List.insertIdx_length_self,
      joinLines_concat_of_ne_nil _ _ (splitLinesJS_ne_nil fileContent), joinLines_splitLinesJS]
  · intro a ha
    have hcond : a < 0 ∨ a > ((splitLinesJS fileContent).length : Int) := by
      rcases ha with h | h
      · exact Or.inl h
      · exact Or.inr h
    unfold executeInsertLinesTool
    rw [if_pos hcond]
    exact ⟨rfl, rfl⟩

/-- Witness for C5: prepending into a one-line file and rejecting a
negative insertion point. -/
theorem executeInsertLinesTool_spec_witness :
    ((executeInsertLinesTool r"f.txt" r"t1" ("x".toList) 0 ("y".toList)).1.is_error = false ∧
      (executeInsertLinesTool r"f.txt" r"t1" ("x".toList) 0 ("y".toList)).2
        = "y".toList ++ '\n' :: "x".toList) ∧
    ((executeInsertLinesTool r"f.txt" r"t1" ("x".toList) (-1) ("y".toList)).1.is_error = true ∧
      (executeInsertLinesTool r"f.txt" r"t1" ("x".toList) (-1) ("y".toList)).2 = "x".toList) :=
  ⟨(executeInsertLinesTool_spec r"f.txt" r"t1" ("x".toList) ("y".toList)).1,
   (executeInsertLinesTool_spec r"f.txt" r"t1" ("x".toList) ("y".toList)).2.2 (-1)
     (Or.inl (by decide))⟩

theorem drop_toNat_min (l : List α) (a : Int) :
    l.drop ((min a (l.length : Int)).toNat) = l.drop a.toNat := by
  rcases le_or_lt a (l.length : Int) with h | h
  · rw [min_eq_left h]
  · rw [min_eq_right h.le, Int.toNat_natCast, List.drop_length,
      Eq.symm (List.drop_eq_nil_of_le ?_)]
    omega

/-- Claim C6: viewing lines 2 through 4 of a five-line file yields exactly
those lines, each prefixed by its 1-based number and a tab; `end_line = -1`
yields the lines from `start_line` through the end of the file. -/
theorem executeViewFileTool_slice_spec (tid : String) (c : JStr) :
    (∀ l1 l2 l3 l4 l5 : JStr, splitLinesJS c = [l1, l2, l3, l4, l5] →
      (executeViewFileTool tid c (some 2) (some 4)).is_error = false ∧
      (executeViewFileTool tid c (some 2) (some 4)).content
        = String.mk (('2' :: '\t' :: l2) ++ '\n' :: ('3' :: '\t' :: l3)
            ++ '\n' :: '4' :: '\t' :: l4)) ∧
    (∀ s : Int, 1 ≤ s →
      (executeViewFileTool tid c (some s) (some (-1))).is_error = false ∧
      (executeViewFileTool tid c (some s) (some (-1))).content
        = String.mk (renderNumberedLines (s - 1) ((splitLinesJS c).drop (s - 1).toNat))) := by
  constructor
  · intro l1 l2 l3 l4 l5 h
    refine ⟨rfl, ?_⟩
    simp only [executeViewFileTool, h]
    norm_num [jsSlice, renderNumberedLines, joinLines, List.enum, List.append_assoc]
    rfl
  · intro s hs
    refine ⟨rfl, ?_⟩
    have hneg : ¬(s - 1 < 0) := by omega
    have hlen : ¬(((splitLinesJS c).length : Int) < 0) := by omega
    simp only [executeViewFileTool, Option.getD_some, jsSlice]
    simp [hneg, hlen, drop_toNat_min]

/-- Witness for C6: the five-line file `a\nb\nc\nd\ne` viewed with
`start_line = 2, end_line = 4`, and with `end_line = -1` from line 2. -/
theorem executeViewFileTool_slice_witness :
    ((executeViewFileTool r"t1" ("a\nb\nc\nd\ne".toList) (some 2) (some 4)).is_error = false ∧
      (executeViewFileTool r"t1" ("a\nb\nc\nd\ne".toList) (some 2) (some 4)).content
        = String.mk (('2' :: '\t' :: "b".toList) ++ '\n' :: ('3' :: '\t' :: "c".toList)
            ++ '\n' :: '4' :: '\t' :: "d".toList)) ∧
    ((executeViewFileTool r"t1" ("a\nb\nc\nd\ne".toList) (some 2) (some (-1))).is_error = false ∧
      (executeViewFileTool r"t1" ("a\nb\nc\nd\ne".toList) (some 2) (some (-1))).content
        = String.mk (renderNumberedLines (2 - 1)
            ((splitLinesJS ("a\nb\nc\nd\ne".toList)).drop (Int.toNat (2 - 1))))) :=
  ⟨(executeViewFileTool_slice_spec r"t1" ("a\nb\nc\nd\ne".toList)).1
      ("a".toList) ("b".toList) ("c".toList) ("d".toList) ("e".toList) (by decide),
   (executeViewFileTool_slice_spec r"t1" ("a\nb\nc\nd\ne".toList)).2 2 (by decide)⟩

theorem drop_take_isInfix (l : List α) (m n : Nat) : (l.take m).drop n <:+: l := by
  refine ⟨(l.take m).take n, l.drop m, ?_⟩
  calc ((l.take m).take n ++ (l.take m).drop n) ++ l.drop m
      = l.take m ++ l.drop m := by rw [List.take_append_drop]
    _ = l := List.take_append_drop m l

/-- Claim C10: on a readable regular file, `executeViewFileTool` never
reports an error, whatever the integer `start_line` and `end_line` are: the
result is always a numbered rendering of a contiguous (possibly empty or
truncated) run of the file's lines. -/
theorem executeViewFileTool_never_errors (tid : String) (c : JStr) (s e : Option Int) :
    (executeViewFileTool tid c s e).is_error = false ∧
    ∃ start slice, slice <:+: splitLinesJS c ∧
      (executeViewFileTool tid c s e).content = String.mk (renderNumberedLines start slice) := by
  refine ⟨rfl, s.getD 1 - 1,
    jsSlice (splitLinesJS c) (s.getD 1 - 1)
      (match e with
       | none => ((splitLinesJS c).length : Int)
       | some x => if x = -1 then ((splitLinesJS c).length : Int) else x), ?_, rfl⟩
  show ((splitLinesJS c).take _).drop _ <:+: splitLinesJS c
  exact drop_take_isInfix _ _ _

theorem callApiCommit_messageParams_length (st : State) (msg : MessageParam) (m : FinalMessage) :
    (callApiCommit st msg m).appState.messageParams.length
      = st.appState.messageParams.length + 2 := by
  simp [callApiCommit, reducer]

theorem runToolLoop_abort_length (exec : ToolUseBlock → ToolResultBlockParam)
    (ms : List FinalMessage) :
    ∀ (st : State) (curr : FinalMessage), curr.stop_reason = StopReason.toolUse →
      (∀ x ∈ ms, x.stop_reason = StopReason.toolUse) →
      (runToolLoop exec st curr
          (ms.map ModelOutcome.success ++ [ModelOutcome.aborted])).appState.messageParams.length
        = st.appState.messageParams.length + 2 * ms.length := by
  induction ms with
  | nil =>
      intro st curr hc _
      simp [runToolLoop, hc]
  | cons m rest ih =>
      intro st curr hc hall
      rw [List.map_cons, List.cons_append, runToolLoop, if_pos hc]
      rw [ih (callApiCommit st (toolResultsMessage exec curr) m) m
        (hall m (by simp)) (fun x hx => hall x (by simp [hx]))]
      rw [callApiCommit_messageParams_length]
      simp only [List.length_cons]
      omega

/-- Claim C1 (amended): cancelling the model call before any call of the
turn completes leaves the store at its pre-turn message count `k`; but a
cancellation at nesting depth `d ≥ 1` — after `d` completed calls of that
turn (each committing its outbound message and the reply) — leaves the
count at `k + 2d`: only the in-flight exchange is discarded, no rollback of
the earlier tool round trips of the turn takes place. -/
theorem runTurn_abort_messageCount (exec : ToolUseBlock → ToolResultBlockParam) (st : State)
    (u : String) (ms : List FinalMessage)
    (h : ∀ x ∈ ms, x.stop_reason = StopReason.toolUse) :
    (runTurn exec st u
        (ms.map ModelOutcome.success ++ [ModelOutcome.aborted])).appState.messageParams.length
      = st.appState.messageParams.length + 2 * ms.length := by
  cases ms with
  | nil => simp [runTurn]
  | cons m rest =>
      rw [List.map_cons, List.cons_append, runTurn]
      rw [runToolLoop_abort_length exec rest (callApiCommit st (userMessageParam u) m) m
        (h m (by simp)) (fun x hx => h x (by simp [hx]))]
      rw [callApiCommit_messageParams_length]
      simp only [List.length_cons]
      omega

/-- Counterexample for C1 as stated: starting from the empty store
(pre-turn count `k = 0`), a turn with one successful tool round trip whose
second model call is then cancelled ends with 2 messages in the store, not
`k = 0` — the "Aborted" handling does not roll the store back to the
pre-turn checkpoint. -/
theorem runTurn_abort_keeps_completed_exchanges :
    initialState.appState.messageParams.length = 0 ∧
    (runTurn okExec initialState r"hi"
        [ModelOutcome.success toolUseReply, ModelOutcome.aborted]).appState.messageParams.length
      = 2 := by
  constructor
  · rfl
  · decide

/-- Witness for the amended C1: one completed tool round trip then a
cancellation leaves the pre-turn count plus two. -/
theorem runTurn_abort_messageCount_witness :
    (∀ x ∈ [toolUseReply], x.stop_reason = StopReason.toolUse) ∧
    (runTurn okExec initialState r"hi"
        ([toolUseReply].map ModelOutcome.success ++ [ModelOutcome.aborted])).appState.messageParams.length
      = initialState.appState.messageParams.length + 2 * [toolUseReply].length :=
  ⟨by decide,
   runTurn_abort_messageCount okExec initialState r"hi" [toolUseReply] (by decide)⟩

/-- Claim C7 (amended): a tool-use block whose name is none of the five
registered tools makes `getToolResultBlock` throw — it never returns a
tool-result block — but the fatal error's message is the fixed string
"Failed to create a tool result when processing the tool call", which does
not name the requested tool. -/
theorem getToolResultBlock_unknown_tool (env : ToolEnv) (b : ToolUseBlock)
    (h : b.name ∉ (["bash", "create_file", "view_file", "str_replace",
      "insert_lines"] : List String)) :
    getToolResultBlock env b
      = DispatchOutcome.thrown "Failed to create a tool result when processing the tool call" := by
  simp only [List.mem_cons, List.mem_singleton, not_or] at h
  obtain ⟨h1, h2, h3, h4, h5⟩ := h
  unfold getToolResultBlock
  split
  · next heq => exact absurd heq h1
  · next heq => exact absurd heq h2
  · next heq => exact absurd heq h3
  · next heq => exact absurd heq h4
  · next heq => exact absurd heq h5.1
  · rfl

/-- Counterexample for C7 as stated: dispatching the unknown tool
`unknown_tool` throws the fixed message, which differs from the claimed
"no executor registered for tool `unknown_tool`". -/
theorem getToolResultBlock_message_counterexample :
    getToolResultBlock okEnv { id := r"t1", name := r"unknown_tool", input := [] }
      = DispatchOutcome.thrown "Failed to create a tool result when processing the tool call" ∧
    ("Failed to create a tool result when processing the tool call"
      ≠ "no executor registered for tool `unknown_tool`") :=
  ⟨by decide, by decide⟩

/-- Witness for the amended C7, at the concrete unknown name
`unknown_tool`. -/
theorem getToolResultBlock_unknown_tool_witness :
    getToolResultBlock okEnv { id := r"t1", name := r"unknown_tool", input := [] }
      = DispatchOutcome.thrown "Failed to create a tool result when processing the tool call" :=
  getToolResultBlock_unknown_tool okEnv _ (by decide)

/-- Claim C8: on leaving the exit-confirmation sub-dialog `interrupted` is
always `false` again; `running` is cleared exactly when the prompt was
answered (not cancelled) with a string matching `/^y(es)?$/i`; any other
answer, and a cancelled prompt, leave `running` as it was. -/
theorem confirmExitDialog_spec (st : State) (answer : Option String) :
    (confirmExitDialog st answer).appState.interrupted = false ∧
    (confirmExitDialog st answer).appState.running
      = (st.appState.running && !(answer.elim false yesMatches)) ∧
    (st.appState.running = true →
      ((confirmExitDialog st answer).appState.running = false ↔
        ∃ a, answer = some a ∧ yesMatches a = true)) := by
  cases answer with
  | none => simp [confirmExitDialog, reducer]
  | some a =>
      by_cases hm : yesMatches a
      · simp [confirmExitDialog, reducer, hm]
      · simp [confirmExitDialog, reducer, hm]

/-- Witness for C8: from a running store, answering `y` ends the loop. -/
theorem confirmExitDialog_spec_witness :
    (confirmExitDialog initialState (some r"y")).appState.interrupted = false ∧
    ((confirmExitDialog initialState (some r"y")).appState.running = false ↔
      ∃ a, (some r"y") = some a ∧ yesMatches a = true) :=
  ⟨(confirmExitDialog_spec initialState (some r"y")).1,
   (confirmExitDialog_spec initialState (some r"y")).2.2 (by decide)⟩

theorem foldl_totalUsage (usages : List TokenUsage) (acc : TotalUsage) :
    usages.foldl
      (fun accum curr =>
        { cache_creation_input_tokens :=
            accum.cache_creation_input_tokens + curr.cache_creation_input_tokens.getD 0
          cache_read_input_tokens :=
            accum.cache_read_input_tokens + curr.cache_read_input_tokens.getD 0
          input_tokens := accum.input_tokens + curr.input_tokens
          output_tokens := accum.output_tokens + curr.output_tokens }) acc
      = { cache_creation_input_tokens :=
            acc.cache_creation_input_tokens
              + (usages.map (fun u => u.cache_creation_input_tokens.getD 0)).sum
          cache_read_input_tokens :=
            acc.cache_read_input_tokens
              + (usages.map (fun u => u.cache_read_input_tokens.getD 0)).sum
          input_tokens := acc.input_tokens + (usages.map TokenUsage.input_tokens).sum
          output_tokens := acc.output_tokens + (usages.map TokenUsage.output_tokens).sum } := by
  induction usages generalizing acc with
  | nil => simp
  | cons u us ih =>
      simp only [List.foldl_cons, List.map_cons, List.sum_cons, ih]
      rw [TotalUsage.mk.injEq]
      refine ⟨?_, ?_, ?_, ?_⟩ <;> omega

/-- Claim C9: the session-cost summary is a function of the pricing table
only (among the store's fields), it equals the four token totals summed
across the usage log, each priced per million tokens, and the summary line
exists exactly when cost reporting is not disabled, in which case it is that
cost string. -/
theorem calculateSessionCost_spec :
    (∀ (st st' : State) (model : SupportedModel) (usages : List TokenUsage),
      st.configState.pricingPerModel = st'.configState.pricingPerModel →
      calculateSessionCost st model usages = calculateSessionCost st' model usages) ∧
    (∀ (st : State) (model : SupportedModel) (usages : List TokenUsage),
      calculateSessionCost st model usages
        = "Session cost: $" ++ toFixed4
            ((((usages.map TokenUsage.input_tokens).sum : ℚ)
                * (st.configState.pricingPerModel.get model).inputPerToken
              + ((usages.map TokenUsage.output_tokens).sum : ℚ)
                * (st.configState.pricingPerModel.get model).outputPerToken
              + ((usages.map (fun u => u.cache_creation_input_tokens.getD 0)).sum : ℚ)
                * (st.configState.pricingPerModel.get model).cacheWrite5mPerToken
              + ((usages.map (fun u => u.cache_read_input_tokens.getD 0)).sum : ℚ)
                * (st.configState.pricingPerModel.get model).cacheReadPerToken) / 1000000)) ∧
    (∀ st : State,
      (maybePrintCostMessage st).isSome = !st.configState.disableCostMessage ∧
      ∀ msg : String, maybePrintCostMessage st = some msg →
        msg = calculateSessionCost st st.configState.model st.appState.messageUsages) := by
  refine ⟨?_, ?_, ?_⟩
  · intro st st' model usages h
    unfold calculateSessionCost
    rw [h]
  · intro st model usages
    unfold calculateSessionCost
    rw [foldl_totalUsage]
    refine congrArg (fun z : ℚ => "Session cost: $" ++ toFixed4 z) ?_
    push_cast
    simp only [List.map_map, Function.comp_def]
    ring
  · intro st
    cases hd : st.configState.disableCostMessage <;>
      simp [maybePrintCostMessage, hd]

/-- Witness for C9: two stores differing in their run-control flags but
sharing the pricing table yield the same cost string. -/
theorem calculateSessionCost_spec_witness :
    calculateSessionCost initialState SupportedModel.haiku45
        [{ input_tokens := 500000, output_tokens := 200000 }]
      = calculateSessionCost
          { initialState with appState := { initialState.appState with running := false } }
          SupportedModel.haiku45 [{ input_tokens := 500000, output_tokens := 200000 }] :=
  calculateSessionCost_spec.1 initialState
    { initialState with appState := { initialState.appState with running := false } }
    SupportedModel.haiku45 [{ input_tokens := 500000, output_tokens := 200000 }] rfl

end AgentJs
